import Mathlib

/-!
Verification of the slice-compositing utilities of the nanslice module
(`nanslice/util.py`): the overlay compositor `overlay_slice`, the sampler
helpers `sample_point` and `center_of_mass`, the drawing wrapper
`draw_slice`, and the shared CLI builder `common_options`.

The sibling modules `nanslice/image.py` (colorize / mask / scale_clip /
blend) and `nanslice/slice.py` (slice sampling) are collaborators of
`util.py` that are not part of the sources analysed here; their operations
are modelled from the specification (sections 2, 4.1 and 4.2) and marked
`Modelled from the spec:` in their doc comments.  Everything else is a
direct translation of `util.py`.

Conventions of the embedding:
* a 2D field sampled on a slice grid is a function `Pix → ℚ` over an
  abstract pixel type `Pix`; all numpy operations in the source are
  elementwise over same-shaped arrays, so they become pointwise operations;
* an RGB raster is `Pix → ℚ × ℚ × ℚ`;
* a numpy boolean array (the result of an elementwise `>`) is embedded as a
  0/1-valued rational field, which is how numpy itself treats booleans in
  the arithmetic that consumes these masks;
* Python `None`-able arguments become `Option`; Python's `if x:` on an
  optional float is true exactly when the value is present and nonzero.
-/

namespace nanslice

/-- An RGB pixel value, one rational per channel. -/
abbrev RGB : Type := ℚ × ℚ × ℚ

/-- Clip a scalar to the unit interval. -/
def clamp01 (x : ℚ) : ℚ := max 0 (min 1 x)

namespace image

/-- Modelled from the spec: `image.colorize` (nanslice/image.py, not among
the analysed sources).  Spec section 4.2: linearly rescale so that
`limits[0] → 0` and `limits[1] → 1`, clip to `[0,1]`, look each value up in
the named colormap.  The colormap itself is resolved externally; here it is
passed as the lookup function `cmap`. -/
def colorize {Pix : Type} (f : Pix → ℚ) (cmap : ℚ → RGB) (lims : ℚ × ℚ) :
    Pix → RGB :=
  fun p => cmap (clamp01 ((f p - lims.1) / (lims.2 - lims.1)))

/-- Modelled from the spec: `image.scale_clip` (nanslice/image.py).  Spec
section 4.2: linearly rescale `limits[0] → 0`, `limits[1] → 1` and clip to
`[0,1]`. -/
def scale_clip {Pix : Type} (f : Pix → ℚ) (lims : ℚ × ℚ) : Pix → ℚ :=
  fun p => clamp01 ((f p - lims.1) / (lims.2 - lims.1))

/-- Modelled from the spec: `image.mask` (nanslice/image.py).  Spec section
4.2: where the mask is falsy/zero the pixel is excluded (replaced with the
background value, here 0), and the operation is the identity on pixels where
the mask is truthy. -/
def mask {Pix : Type} (rgb : Pix → RGB) (m : Pix → ℚ) : Pix → RGB :=
  fun p => if m p = 0 then ((0 : ℚ), (0 : ℚ), (0 : ℚ)) else rgb p

/-- Modelled from the spec: `image.blend` (nanslice/image.py).  Spec section
4.2: per-pixel convex combination `base * (1 - alpha) + overlay * alpha`,
the alpha broadcast across the three channels. -/
def blend {Pix : Type} (base ovl : Pix → RGB) (alpha : Pix → ℚ) : Pix → RGB :=
  fun p =>
    ((base p).1 * (1 - alpha p) + (ovl p).1 * alpha p,
     (base p).2.1 * (1 - alpha p) + (ovl p).2.1 * alpha p,
     (base p).2.2 * (1 - alpha p) + (ovl p).2.2 * alpha p)

end image

/-- The `Options` namedtuple of util.py.  `color_map` is the colormap name,
resolved through the external registry; `color_mask_thresh` is optional
(`None` by default on the CLI surface). -/
structure Options where
  interp_order : ℕ
  color_map : String
  color_lims : ℚ × ℚ
  color_scale : ℚ
  color_mask_thresh : Option ℚ
  alpha_lims : ℚ × ℚ

/-- The color-mask resolution of `overlay_slice` (util.py lines 39-46).
`cm_sample` is the sampled color-mask field when `img_color_mask` is given,
`sl_color` the already `color_scale`-multiplied color field.  Python tests
`options.color_mask_thresh` with `if`, so the threshold takes effect exactly
when it is present and nonzero; the elementwise `>` produces a boolean
array, embedded as a 0/1 field. -/
def resolve_color_mask {Pix : Type} (cm_sample : Option (Pix → ℚ))
    (color_mask_thresh : Option ℚ) (sl_color : Pix → ℚ) : Pix → ℚ :=
  match cm_sample with
  | some m =>
    match color_mask_thresh with
    | some t => if t ≠ 0 then (fun p => if m p > t then 1 else 0) else m
    | none => m
  | none =>
    match color_mask_thresh with
    | some t =>
      if t ≠ 0 then (fun p => if sl_color p > t then 1 else 0)
      else (fun _ => 1)
    | none => fun _ => 1

/-- `overlay_slice` (util.py lines 30-62).  The slice geometry is consumed
only through its sampling operation, so it is embedded as the function
`sl : Vol → ℕ → Pix → ℚ` taking a volume and an interpolation order to a
sampled field (spec section 2, Sampler; nanslice/slice.py is not among the
analysed sources).  `registry` is the external colormap registry resolving a
name to a lookup function; the base layer uses the gray palette. -/
def overlay_slice {Pix Vol : Type} (registry : String → ℚ → RGB)
    (sl : Vol → ℕ → Pix → ℚ) (options : Options) (window : ℚ × ℚ)
    (img_base : Vol) (img_mask : Option Vol)
    (img_color : Option Vol) (img_color_mask : Option Vol)
    (img_alpha : Option Vol) : Pix → RGB :=
  let sl_base := image.colorize (sl img_base options.interp_order)
    (registry ("gray")) window
  let sl_blend :=
    match img_color with
    | some c =>
      let sl_color := fun p => sl c options.interp_order p * options.color_scale
      let sl_color_mask := resolve_color_mask
        (img_color_mask.map (fun v => sl v options.interp_order))
        options.color_mask_thresh sl_color
      let sl_color := image.mask
        (image.colorize sl_color (registry options.color_map) options.color_lims)
        sl_color_mask
      match img_alpha with
      | some a =>
        let sl_alpha := sl a options.interp_order
        let sl_scaled_alpha := image.scale_clip sl_alpha options.alpha_lims
        image.blend sl_base sl_color sl_scaled_alpha
      | none => image.blend sl_base sl_color sl_color_mask
    | none => sl_base
  match img_mask with
  | some m => image.mask sl_blend (sl m options.interp_order)
  | none => sl_blend

/-- The three-way color-mask policy exactly as the spec states it (section
4.3 step 2 and the design note of section 9): an explicit mask volume wins,
a threshold binarizes whenever it is given, otherwise the mask is all-ones. -/
inductive ColorMaskPolicy (Pix : Type) where
  | explicitMask (field : Pix → ℚ) (thresh : Option ℚ)
  | thresholdOnColor (thresh : ℚ)
  | alwaysVisible

/-- The spec's resolution of the policy from the given inputs (claim reading:
the threshold is honored whenever it is given). -/
def specColorMaskPolicy {Pix : Type} (cm_sample : Option (Pix → ℚ))
    (color_mask_thresh : Option ℚ) : ColorMaskPolicy Pix :=
  match cm_sample with
  | some m => ColorMaskPolicy.explicitMask m color_mask_thresh
  | none =>
    match color_mask_thresh with
    | some t => ColorMaskPolicy.thresholdOnColor t
    | none => ColorMaskPolicy.alwaysVisible

/-- Apply a resolved policy to obtain the color mask field (spec section 4.3
step 2): binarize by strict `>` where a threshold is attached, pass an
unthresholded explicit mask through as-is, and default to all-ones. -/
def applyColorMaskPolicy {Pix : Type} (pol : ColorMaskPolicy Pix)
    (sl_color : Pix → ℚ) : Pix → ℚ :=
  match pol with
  | ColorMaskPolicy.explicitMask m (some t) => fun p => if m p > t then 1 else 0
  | ColorMaskPolicy.explicitMask m none => m
  | ColorMaskPolicy.thresholdOnColor t => fun p => if sl_color p > t then 1 else 0
  | ColorMaskPolicy.alwaysVisible => fun _ => 1

/-- Python truthiness of an optional float threshold: keep it exactly when it
is present and nonzero. -/
def truthyThresh : Option ℚ → Option ℚ
  | some t => if t ≠ 0 then some t else none
  | none => none

/-- A drawing command emitted by `draw_slice` onto the plotting axis. -/
inductive DrawCmd (Pix : Type) where
  | imshow (img : Pix → RGB)
  | axisOff
  | contour (field : Pix → ℚ) (levels : List ℚ) (colors : String)

/-- `draw_slice` (util.py lines 64-75), embedded as the list of drawing
commands issued on the axis.  The contour field is sampled at order 1 (the
literal in the source), and contour lines are drawn only when the sampled
field has a value strictly below and a value strictly above the first
contour level; `levels[0]` requires a nonempty level list, matched here
explicitly.  Line colors and widths are passed through as styling. -/
def draw_slice {Pix Vol : Type} [Fintype Pix] (registry : String → ℚ → RGB)
    (sl : Vol → ℕ → Pix → ℚ) (opts : Options) (window : ℚ × ℚ)
    (img : Vol) (mask : Option Vol)
    (color_img : Option Vol) (color_mask : Option Vol) (alpha_img : Option Vol)
    (contour_img : Option Vol) (contour_levels : List ℚ)
    (contour_colors : String) : List (DrawCmd Pix) :=
  let sliced := overlay_slice registry sl opts window img mask
    color_img color_mask alpha_img
  [DrawCmd.imshow sliced, DrawCmd.axisOff] ++
    (match contour_img, contour_levels with
     | some cimg, l0 :: rest =>
       let sliced_contour := sl cimg 1
       if (∃ p, sliced_contour p < l0) ∧ (∃ p, sliced_contour p > l0) then
         [DrawCmd.contour sliced_contour (l0 :: rest) contour_colors]
       else []
     | _, _ => [])

/-- The scaled color field of `overlay_slice` (util.py line 38): the sampled
color volume multiplied by `options.color_scale`. -/
def sl_color_field {Pix Vol : Type} (sl : Vol → ℕ → Pix → ℚ)
    (options : Options) (img_color : Vol) : Pix → ℚ :=
  fun p => sl img_color options.interp_order p * options.color_scale

/-- The resolved color mask of `overlay_slice` (util.py lines 39-46) as a
field of the inputs. -/
def color_mask_field {Pix Vol : Type} (sl : Vol → ℕ → Pix → ℚ)
    (options : Options) (img_color : Vol) (img_color_mask : Option Vol) :
    Pix → ℚ :=
  resolve_color_mask (img_color_mask.map fun v => sl v options.interp_order)
    options.color_mask_thresh (sl_color_field sl options img_color)

/-- The base layer of `overlay_slice` (util.py lines 35-36): the sampled
base volume colorized through the gray palette normalized to the window. -/
def base_layer_field {Pix Vol : Type} (registry : String → ℚ → RGB)
    (sl : Vol → ℕ → Pix → ℚ) (options : Options) (window : ℚ × ℚ)
    (img_base : Vol) : Pix → RGB :=
  image.colorize (sl img_base options.interp_order) (registry ("gray")) window

/-- The masked color layer of `overlay_slice` (util.py lines 47-48): the
scaled color field colorized through `options.color_map` over
`options.color_lims`, then masked by the resolved color mask. -/
def color_layer_field {Pix Vol : Type} (registry : String → ℚ → RGB)
    (sl : Vol → ℕ → Pix → ℚ) (options : Options) (img_color : Vol)
    (img_color_mask : Option Vol) : Pix → RGB :=
  image.mask
    (image.colorize (sl_color_field sl options img_color)
      (registry options.color_map) options.color_lims)
    (color_mask_field sl options img_color img_color_mask)

/-- A 3-vector of rationals (a physical-space point or a voxel-index
coordinate triple). -/
structure Vec3 where
  x : ℚ
  y : ℚ
  z : ℚ
deriving DecidableEq

/-- A 3x3 rational matrix, the rotation/scale/shear block of an affine. -/
structure Mat3 where
  m00 : ℚ
  m01 : ℚ
  m02 : ℚ
  m10 : ℚ
  m11 : ℚ
  m12 : ℚ
  m20 : ℚ
  m21 : ℚ
  m22 : ℚ
deriving DecidableEq

/-- Matrix(3x3)-vector product, `np.dot(M, v)`. -/
def mulVec3 (M : Mat3) (v : Vec3) : Vec3 :=
  ⟨M.m00 * v.x + M.m01 * v.y + M.m02 * v.z,
   M.m10 * v.x + M.m11 * v.y + M.m12 * v.z,
   M.m20 * v.x + M.m21 * v.y + M.m22 * v.z⟩

/-- Componentwise vector addition. -/
def vadd3 (a b : Vec3) : Vec3 := ⟨a.x + b.x, a.y + b.y, a.z + b.z⟩

/-- Matrix negation, `-M`. -/
def matNeg3 (M : Mat3) : Mat3 :=
  ⟨-M.m00, -M.m01, -M.m02, -M.m10, -M.m11, -M.m12, -M.m20, -M.m21, -M.m22⟩

/-- Determinant of a 3x3 matrix. -/
def det3 (M : Mat3) : ℚ :=
  M.m00 * (M.m11 * M.m22 - M.m12 * M.m21)
  - M.m01 * (M.m10 * M.m22 - M.m12 * M.m20)
  + M.m02 * (M.m10 * M.m21 - M.m11 * M.m20)

/-- Inverse of a 3x3 matrix by the adjugate formula (`np.mat(...).I`); each
entry is the corresponding cofactor of the transpose divided by the
determinant. -/
def inv3 (M : Mat3) : Mat3 :=
  let d := det3 M
  ⟨(M.m11 * M.m22 - M.m12 * M.m21) / d,
   (M.m02 * M.m21 - M.m01 * M.m22) / d,
   (M.m01 * M.m12 - M.m02 * M.m11) / d,
   (M.m12 * M.m20 - M.m10 * M.m22) / d,
   (M.m00 * M.m22 - M.m02 * M.m20) / d,
   (M.m02 * M.m10 - M.m00 * M.m12) / d,
   (M.m10 * M.m21 - M.m11 * M.m20) / d,
   (M.m01 * M.m20 - M.m00 * M.m21) / d,
   (M.m00 * M.m11 - M.m01 * M.m10) / d⟩

/-- A volume as consumed by `sample_point`: the squeezed scalar data indexed
by integer voxel coordinates (with the interpolator's boundary extension
already applied, so the function is total), the `[0:3, 0:3]` block of the
4x4 affine and its `[0:3, 3]` translation column.  The bottom affine row is
never read by the code. -/
structure VolumeZ where
  data : ℤ → ℤ → ℤ → ℚ
  affine3 : Mat3
  trans : Vec3

/-- Trilinear interpolation of gridded data at a fractional coordinate:
`scipy.ndimage.interpolation.map_coordinates` with `order=1`.  The
coordinate is split into integer floor and fractional part per axis and the
eight surrounding voxels are combined with the product weights. -/
def trilinear (D : ℤ → ℤ → ℤ → ℚ) (s : Vec3) : ℚ :=
  let i := ⌊s.x⌋
  let j := ⌊s.y⌋
  let k := ⌊s.z⌋
  let fx := s.x - (i : ℚ)
  let fy := s.y - (j : ℚ)
  let fz := s.z - (k : ℚ)
  (1 - fx) * (1 - fy) * (1 - fz) * D i j k
  + fx * (1 - fy) * (1 - fz) * D (i + 1) j k
  + (1 - fx) * fy * (1 - fz) * D i (j + 1) k
  + (1 - fx) * (1 - fy) * fz * D i j (k + 1)
  + fx * fy * (1 - fz) * D (i + 1) (j + 1) k
  + fx * (1 - fy) * fz * D (i + 1) j (k + 1)
  + (1 - fx) * fy * fz * D i (j + 1) (k + 1)
  + fx * fy * fz * D (i + 1) (j + 1) (k + 1)

/-- `sample_point` (util.py lines 14-18), at the default interpolation
order 1 (the order the analysed property fixes; higher-order splines are not
modelled).  `scale` is the inverse of the affine's 3x3 block, `offset` is
`np.dot(-scale, affine[0:3, 3])`, and the physical point is mapped to the
fractional voxel coordinate `scale * point + offset` before interpolation. -/
def sample_point (img : VolumeZ) (point : Vec3) : ℚ :=
  let scale := inv3 img.affine3
  let offset := mulVec3 (matNeg3 scale) img.trans
  let s_point := vadd3 (mulVec3 scale point) offset
  trilinear img.data s_point

/-- The physical-space point of an integer voxel index: the first three
components of the 4x4 affine applied to the homogeneous index
`(i, j, k, 1)`, that is `affine3 * (i, j, k) + trans`. -/
def voxel_to_phys (img : VolumeZ) (i j k : ℤ) : Vec3 :=
  vadd3 (mulVec3 img.affine3 ⟨(i : ℚ), (j : ℚ), (k : ℚ)⟩) img.trans

/-- A finite 3D volume as consumed by `center_of_mass`: dimensions, voxel
data (read only at indices below the dimensions) and the full 4x4 affine. -/
structure VolumeN where
  n0 : ℕ
  n1 : ℕ
  n2 : ℕ
  data : ℕ → ℕ → ℕ → ℚ
  affine : Fin 4 → Fin 4 → ℚ

/-- `np.argmax` over the first `n` values of `f`: the index of the first
occurrence of the maximum. -/
def np_argmax (f : ℕ → ℚ) (n : ℕ) : ℕ :=
  (List.range n).foldl (fun best i => if f best < f i then i else best) 0

/-- The marginal intensity along axis 0: `np.sum(data, axis=(1,2))` at
index `i`. -/
def marginal0 (img : VolumeN) (i : ℕ) : ℚ :=
  (Finset.range img.n1).sum fun j =>
    (Finset.range img.n2).sum fun k => img.data i j k

/-- The marginal intensity along axis 1: `np.sum(data, axis=(0,2))` at
index `j`. -/
def marginal1 (img : VolumeN) (j : ℕ) : ℚ :=
  (Finset.range img.n0).sum fun i =>
    (Finset.range img.n2).sum fun k => img.data i j k

/-- The marginal intensity along axis 2: `np.sum(data, axis=(0,1))` at
index `k`. -/
def marginal2 (img : VolumeN) (k : ℕ) : ℚ :=
  (Finset.range img.n0).sum fun i =>
    (Finset.range img.n1).sum fun j => img.data i j k

/-- The homogeneous coordinate vector `(i0, i1, i2, 1)` of a voxel index. -/
def homog4 (i0 i1 i2 : ℕ) : Fin 4 → ℚ := fun c =>
  if c = 0 then (i0 : ℚ) else if c = 1 then (i1 : ℚ)
  else if c = 2 then (i2 : ℚ) else 1

/-- One row of `np.dot(matrix, vector)` for a 4x4 matrix and a 4-vector. -/
def dot4 (A : Fin 4 → Fin 4 → ℚ) (r : Fin 4) (v : Fin 4 → ℚ) : ℚ :=
  A r 0 * v 0 + A r 1 * v 1 + A r 2 * v 2 + A r 3 * v 3

/-- `center_of_mass` (util.py lines 20-25): the first-maximum index of each
axis marginal, mapped through the full 4x4 affine as the homogeneous vector
`(idx0, idx1, idx2, 1)`.  `np.dot` of a 4x4 matrix with a length-4 vector
returns a length-4 vector, embedded here as a 4-element list. -/
def center_of_mass (img : VolumeN) : List ℚ :=
  let idx0 := np_argmax (marginal0 img) img.n0
  let idx1 := np_argmax (marginal1 img) img.n1
  let idx2 := np_argmax (marginal2 img) img.n2
  let h := homog4 idx0 idx1 idx2
  [dot4 img.affine 0 h, dot4 img.affine 1 h,
   dot4 img.affine 2 h, dot4 img.affine 3 h]

/-- The minimal state of an `argparse.ArgumentParser` needed here: its
description and the names of the arguments registered so far. -/
structure ArgParser where
  description : String
  arguments : List String

/-- The keyword-argument names accepted by `argparse`'s
`ArgumentParser.add_argument` (Python standard library): any other keyword
makes the underlying action constructor raise a `TypeError`. -/
def argparse_valid_kwargs : List String :=
  [("action"), ("nargs"), ("const"), ("default"), ("type"), ("choices"),
   ("required"), ("help"), ("metavar"), ("dest"), ("version")]

/-- `ArgumentParser.add_argument`, modelled on the surface `util.py`
exercises: the call either registers the argument name or raises `TypeError`
on the first unexpected keyword argument.  The raised exception propagates,
so an already-failed parser state is passed through. -/
def add_argument (st : Except String ArgParser) (name : String)
    (kwargs : List String) : Except String ArgParser :=
  match st with
  | Except.error e => Except.error e
  | Except.ok parser =>
    match kwargs.find? (fun k => !(argparse_valid_kwargs.contains k)) with
    | some bad =>
      Except.error (("TypeError: unexpected keyword argument ") ++ bad)
    | none => Except.ok { parser with arguments := parser.arguments ++ [name] }

/-- `common_options` (util.py lines 191-239): every `add_argument` call of
the source in order, each with the keyword-argument names it passes.  The
result is the built parser, or the first exception raised. -/
def common_options : Except String ArgParser :=
  let p := Except.ok { description := ("Dual-coding viewer."), arguments := [] }
  let p := add_argument p ("base_image") [("help"), ("type")]
  let p := add_argument p ("--mask") [("type"), ("help")]
  let p := add_argument p ("--color") [("type"), ("help")]
  let p := add_argument p ("--color_lims")
    [("type"), ("noptions"), ("default"), ("help")]
  let p := add_argument p ("--color_mask") [("type"), ("help")]
  let p := add_argument p ("--color_mask_thresh") [("type"), ("help")]
  let p := add_argument p ("--color_scale") [("type"), ("default"), ("help")]
  let p := add_argument p ("--color_map") [("type"), ("default"), ("help")]
  let p := add_argument p ("--color_label") [("type"), ("default"), ("help")]
  let p := add_argument p ("--alpha") [("type"), ("help")]
  let p := add_argument p ("--alpha_lims")
    [("type"), ("noptions"), ("default"), ("help")]
  let p := add_argument p ("--alpha_label") [("type"), ("default"), ("help")]
  let p := add_argument p ("--contour_img") [("type"), ("help")]
  let p := add_argument p ("--contour") [("type"), ("action"), ("help")]
  let p := add_argument p ("--contour_color") [("type"), ("action"), ("help")]
  let p := add_argument p ("--contour_style") [("type"), ("action"), ("help")]
  let p := add_argument p ("--window")
    [("type"), ("noptions"), ("default"), ("help")]
  let p := add_argument p ("--samples") [("type"), ("default"), ("help")]
  let p := add_argument p ("--interp") [("type"), ("default"), ("help")]
  let p := add_argument p ("--interp_order") [("type"), ("default"), ("help")]
  let p := add_argument p ("--orient") [("type"), ("default"), ("help")]
  p

/-- A concrete colormap registry for evaluation: every name maps a value to
the gray triple of that value. -/
def wRegistry : String → ℚ → RGB := fun _ v => (v, v, v)

/-- A concrete slice sampler for evaluation over a two-pixel grid: a volume
is represented directly by its sampled field. -/
def wSl : (Bool → ℚ) → ℕ → Bool → ℚ := fun v _ p => v p

/-- Concrete options for evaluation: unit color scale, threshold 1. -/
def wOptions : Options :=
  { interp_order := 1, color_map := ("hot"), color_lims := (0, 1),
    color_scale := 1, color_mask_thresh := some 1, alpha_lims := (0, 1) }

/-- A concrete base volume for evaluation: identically zero. -/
def wBase : Bool → ℚ := fun _ => 0

/-- A concrete color volume for evaluation: 2 on one pixel, 0 on the other,
so the threshold-1 binarized mask is 1 and 0 respectively. -/
def wColor : Bool → ℚ := fun p => if p then 2 else 0

/-- A concrete volume for evaluating `sample_point`: anisotropic scaling and
a translation, with data separating the three indices. -/
def wVolZ : VolumeZ :=
  { data := fun i j k => (i : ℚ) * 100 + (j : ℚ) * 10 + (k : ℚ)
    affine3 := ⟨2, 0, 0, 0, 1, 0, 0, 0, 1⟩
    trans := ⟨5, 0, 0⟩ }

/-- A concrete volume for evaluating `center_of_mass`: a 2x2x2 grid with the
single positive voxel (1, 0, 1), and a scaling-plus-translation affine. -/
def wVolN : VolumeN :=
  { n0 := 2, n1 := 2, n2 := 2
    data := fun i j k => if i = 1 ∧ j = 0 ∧ k = 1 then 3 else 0
    affine := fun r c =>
      if (r : ℕ) = (c : ℕ) then 2 else if (c : ℕ) = 3 then 1 else 0 }

/-- A concrete trivial volume for `center_of_mass`: one voxel of value 1 at
the origin under the identity affine. -/
def wVolN1 : VolumeN :=
  { n0 := 1, n1 := 1, n2 := 1
    data := fun _ _ _ => 1
    affine := fun r c => if (r : ℕ) = (c : ℕ) then 1 else 0 }

/-! ## Theorems -/

/-- Claim C4: with no color volume, no mask volume and no alpha volume,
`overlay_slice` returns exactly the grayscale colorization of the base
volume sampled at `options.interp_order` and normalized to `window`. -/
theorem overlay_slice_base_only {Pix Vol : Type} (registry : String → ℚ → RGB)
    (sl : Vol → ℕ → Pix → ℚ) (options : Options) (window : ℚ × ℚ)
    (img_base : Vol) (img_color_mask : Option Vol) :
    overlay_slice registry sl options window img_base none none
      img_color_mask none
      = base_layer_field registry sl options window img_base := rfl

/-- Claim C5: with a mask volume present, `overlay_slice` returns
`image.mask` of the blended result (the value the call returns when the mask
volume is absent, and which is unchanged by the absent final stage) under
the mask volume sampled at `options.interp_order`. -/
theorem overlay_slice_final_mask {Pix Vol : Type} (registry : String → ℚ → RGB)
    (sl : Vol → ℕ → Pix → ℚ) (options : Options) (window : ℚ × ℚ)
    (img_base : Vol) (img_mask : Vol) (img_color : Option Vol)
    (img_color_mask : Option Vol) (img_alpha : Option Vol) :
    overlay_slice registry sl options window img_base (some img_mask)
      img_color img_color_mask img_alpha
      = image.mask
          (overlay_slice registry sl options window img_base none
            img_color img_color_mask img_alpha)
          (sl img_mask options.interp_order) := by
  cases img_color <;> rfl

/-- Claim C3: with both a color volume and an alpha volume present, the
base layer and the masked color layer are blended with the weight
`scale_clip(alpha_sample, alpha_lims)`; the weight term mentions neither
`color_mask_thresh` nor the color mask. -/
theorem overlay_slice_alpha_weight {Pix Vol : Type} (registry : String → ℚ → RGB)
    (sl : Vol → ℕ → Pix → ℚ) (options : Options) (window : ℚ × ℚ)
    (img_base : Vol) (img_color : Vol) (img_color_mask : Option Vol)
    (img_alpha : Vol) :
    overlay_slice registry sl options window img_base none (some img_color)
      img_color_mask (some img_alpha)
      = image.blend (base_layer_field registry sl options window img_base)
          (color_layer_field registry sl options img_color img_color_mask)
          (image.scale_clip (sl img_alpha options.interp_order)
            options.alpha_lims) := rfl

/-- Claim C2: with a color volume present and no alpha volume, the base
layer and the masked color layer are blended with the resolved color mask
itself as the per-pixel weight; where the mask is 0 the output is the pure
base layer, where it is 1 the output is the masked color layer. -/
theorem overlay_slice_mask_as_weight {Pix Vol : Type}
    (registry : String → ℚ → RGB) (sl : Vol → ℕ → Pix → ℚ) (options : Options)
    (window : ℚ × ℚ) (img_base : Vol) (img_color : Vol)
    (img_color_mask : Option Vol) :
    (overlay_slice registry sl options window img_base none (some img_color)
        img_color_mask none
      = image.blend (base_layer_field registry sl options window img_base)
          (color_layer_field registry sl options img_color img_color_mask)
          (color_mask_field sl options img_color img_color_mask))
    ∧ (∀ p, color_mask_field sl options img_color img_color_mask p = 0 →
        overlay_slice registry sl options window img_base none (some img_color)
          img_color_mask none p
        = base_layer_field registry sl options window img_base p)
    ∧ (∀ p, color_mask_field sl options img_color img_color_mask p = 1 →
        overlay_slice registry sl options window img_base none (some img_color)
          img_color_mask none p
        = color_layer_field registry sl options img_color img_color_mask p) := by
  refine ⟨rfl, ?_, ?_⟩
  · intro p hp
    show image.blend (base_layer_field registry sl options window img_base)
      (color_layer_field registry sl options img_color img_color_mask)
      (color_mask_field sl options img_color img_color_mask) p
      = base_layer_field registry sl options window img_base p
    simp [image.blend, hp]
  · intro p hp
    show image.blend (base_layer_field registry sl options window img_base)
      (color_layer_field registry sl options img_color img_color_mask)
      (color_mask_field sl options img_color img_color_mask) p
      = color_layer_field registry sl options img_color img_color_mask p
    simp [image.blend, hp]

/-- Witness for claim C2 at concrete inputs: on the pixel where the
binarized mask is 0 the output is the base layer, on the pixel where it is
1 the output is the masked color layer. -/
theorem overlay_slice_mask_as_weight_witness :
    color_mask_field wSl wOptions wColor none false = 0
    ∧ overlay_slice wRegistry wSl wOptions (0, 1) wBase none (some wColor)
        none none false
      = base_layer_field wRegistry wSl wOptions (0, 1) wBase false
    ∧ color_mask_field wSl wOptions wColor none true = 1
    ∧ overlay_slice wRegistry wSl wOptions (0, 1) wBase none (some wColor)
        none none true
      = color_layer_field wRegistry wSl wOptions wColor none true := by
  have h0 : color_mask_field wSl wOptions wColor none false = 0 := by
    norm_num [color_mask_field, resolve_color_mask, sl_color_field, wOptions,
      wColor, wSl]
  have h1 : color_mask_field wSl wOptions wColor none true = 1 := by
    norm_num [color_mask_field, resolve_color_mask, sl_color_field, wOptions,
      wColor, wSl]
  refine ⟨h0, ?_, h1, ?_⟩
  · exact (overlay_slice_mask_as_weight wRegistry wSl wOptions (0, 1) wBase
      wColor none).2.1 false h0
  · exact (overlay_slice_mask_as_weight wRegistry wSl wOptions (0, 1) wBase
      wColor none).2.2 true h1

/-- Counterexample to claim C1 as stated: with a color-mask volume sampling
to the constant 1/2 and the threshold 0 given, the code uses the sampled
mask as-is (value 1/2) while the stated policy binarizes at the threshold
(value 1). -/
theorem resolve_color_mask_policy_cex :
    resolve_color_mask (some fun _ : Unit => (1 : ℚ)/2) (some 0)
        (fun _ => 0) ()
      ≠ applyColorMaskPolicy
          (specColorMaskPolicy (some fun _ => (1 : ℚ)/2) (some 0))
          (fun _ => 0) () := by
  simp [resolve_color_mask, applyColorMaskPolicy, specColorMaskPolicy]

/-- Claim C1 (amended): the color mask of `overlay_slice` follows the
three-tier policy with the threshold honored exactly when it is given and
nonzero (Python truthiness); a given-but-zero threshold acts as absent. -/
theorem resolve_color_mask_policy {Pix : Type} (cm_sample : Option (Pix → ℚ))
    (color_mask_thresh : Option ℚ) (sl_color : Pix → ℚ) :
    resolve_color_mask cm_sample color_mask_thresh sl_color
      = applyColorMaskPolicy
          (specColorMaskPolicy cm_sample (truthyThresh color_mask_thresh))
          sl_color := by
  cases cm_sample with
  | some m =>
    cases color_mask_thresh with
    | some t =>
      by_cases ht : t = 0 <;>
        simp [resolve_color_mask, truthyThresh, specColorMaskPolicy,
          applyColorMaskPolicy, ht]
    | none => rfl
  | none =>
    cases color_mask_thresh with
    | some t =>
      by_cases ht : t = 0 <;>
        simp [resolve_color_mask, truthyThresh, specColorMaskPolicy,
          applyColorMaskPolicy, ht]
    | none => rfl

/-- Claim C8: a `color_mask_thresh` of 0 behaves exactly like an absent
threshold: the whole compositor output agrees, a sampled color mask is used
unbinarized, and without a color-mask volume the mask is all-ones. -/
theorem overlay_slice_zero_thresh {Pix Vol : Type} (registry : String → ℚ → RGB)
    (sl : Vol → ℕ → Pix → ℚ) (options : Options) (window : ℚ × ℚ)
    (img_base : Vol) (img_mask : Option Vol) (img_color : Option Vol)
    (img_color_mask : Option Vol) (img_alpha : Option Vol) :
    (overlay_slice registry sl { options with color_mask_thresh := some 0 }
        window img_base img_mask img_color img_color_mask img_alpha
      = overlay_slice registry sl { options with color_mask_thresh := none }
        window img_base img_mask img_color img_color_mask img_alpha)
    ∧ (∀ (m sl_color : Pix → ℚ),
        resolve_color_mask (some m) (some 0) sl_color = m)
    ∧ (∀ (sl_color : Pix → ℚ),
        resolve_color_mask (none : Option (Pix → ℚ)) (some 0) sl_color
          = fun _ => 1) := by
  refine ⟨?_, fun m c => by simp [resolve_color_mask],
    fun c => by simp [resolve_color_mask]⟩
  have hr : ∀ (cm : Option (Pix → ℚ)) (c : Pix → ℚ),
      resolve_color_mask cm (some 0) c = resolve_color_mask cm none c := by
    intro cm c
    cases cm <;> simp [resolve_color_mask]
  cases img_color with
  | none => rfl
  | some c =>
    cases img_mask <;> cases img_alpha <;>
      simp only [overlay_slice, hr]

/-- Claim C9 (evaluating the code at the failing input): `common_options()`
does not return a parser — its fourth `add_argument` call passes the keyword
`noptions`, which `argparse` does not accept, so the call raises a
`TypeError` instead of returning. -/
theorem common_options_raises :
    common_options
      = Except.error (("TypeError: unexpected keyword argument ")
          ++ ("noptions")) := rfl

/-- Claim C10: with a contour image given and a nonempty level list,
`draw_slice` emits the contour draw call exactly when the sampled contour
field (order 1) has a value strictly below and a value strictly above the
first level; otherwise the step is skipped and the emitted command list is
still well defined (no error). -/
theorem draw_slice_contour_iff {Pix Vol : Type} [Fintype Pix]
    (registry : String → ℚ → RGB) (sl : Vol → ℕ → Pix → ℚ) (opts : Options)
    (window : ℚ × ℚ) (img : Vol) (mask : Option Vol) (color_img : Option Vol)
    (color_mask : Option Vol) (alpha_img : Option Vol) (cimg : Vol)
    (l0 : ℚ) (ls : List ℚ) (contour_colors : String) :
    DrawCmd.contour (sl cimg 1) (l0 :: ls) contour_colors ∈
        draw_slice registry sl opts window img mask color_img color_mask
          alpha_img (some cimg) (l0 :: ls) contour_colors
      ↔ ((∃ p, sl cimg 1 p < l0) ∧ (∃ p, sl cimg 1 p > l0)) := by
  by_cases h : (∃ p, sl cimg 1 p < l0) ∧ (∃ p, sl cimg 1 p > l0) <;>
    simp [draw_slice, h]

/-- Witness for claim C10 at concrete inputs: a two-pixel contour field with
values 0 and 2 straddles the level 1, so the contour command is emitted. -/
theorem draw_slice_contour_iff_witness :
    DrawCmd.contour (wSl wColor 1) ((1 : ℚ) :: []) ("w") ∈
      draw_slice wRegistry wSl wOptions (0, 1) wBase none none none none
        (some wColor) ((1 : ℚ) :: []) ("w") := by
  refine (draw_slice_contour_iff wRegistry wSl wOptions (0, 1) wBase none none
    none none wColor 1 [] ("w")).mpr ⟨⟨false, ?_⟩, ⟨true, ?_⟩⟩
  · norm_num [wSl, wColor]
  · norm_num [wSl, wColor]

/-- Helper: the fold used by `np_argmax` returns its initial value or an
element of the folded list. -/
theorem np_argmax_foldl_mem (f : ℕ → ℚ) (l : List ℕ) (init : ℕ) :
    l.foldl (fun best i => if f best < f i then i else best) init = init
    ∨ l.foldl (fun best i => if f best < f i then i else best) init ∈ l := by
  induction l generalizing init with
  | nil => exact Or.inl rfl
  | cons a t ih =>
    simp only [List.foldl_cons]
    by_cases hc : f init < f a
    · rw [if_pos hc]
      rcases ih a with h | h
      · exact Or.inr (by rw [h]; exact List.mem_cons_self a t)
      · exact Or.inr (List.mem_cons_of_mem a h)
    · rw [if_neg hc]
      rcases ih init with h | h
      · exact Or.inl h
      · exact Or.inr (List.mem_cons_of_mem a h)

/-- Helper: `np_argmax` of a function whose only nonzero value below `n` is
a single positive peak at `a` returns exactly `a`. -/
theorem np_argmax_single_peak (f : ℕ → ℚ) (a : ℕ) (hpos : 0 < f a) :
    ∀ n, a < n → (∀ i, i < n → i ≠ a → f i = 0) → np_argmax f n = a := by
  intro n
  induction n with
  | zero => intro ha; exact absurd ha (Nat.not_lt_zero a)
  | succ n ih =>
    intro ha hz
    unfold np_argmax at ih ⊢
    rw [List.range_succ, List.foldl_append, List.foldl_cons, List.foldl_nil]
    by_cases han : a = n
    · subst han
      rcases np_argmax_foldl_mem f (List.range a) 0 with hB | hB
      · rw [hB]
        rcases Nat.eq_zero_or_pos a with h0 | h0
        · subst h0
          exact if_neg (lt_irrefl (f 0))
        · have hf0 : f 0 = 0 := hz 0 (by omega) (by omega)
          have hlt : f 0 < f a := by rw [hf0]; exact hpos
          rw [if_pos hlt]
      · have hBlt : (List.range a).foldl
            (fun best i => if f best < f i then i else best) 0 < a :=
          List.mem_range.mp hB
        have hfB : f ((List.range a).foldl
            (fun best i => if f best < f i then i else best) 0) = 0 :=
          hz _ (by omega) (by omega)
        have hlt : f ((List.range a).foldl
            (fun best i => if f best < f i then i else best) 0) < f a := by
          rw [hfB]; exact hpos
        rw [if_pos hlt]
    · have ha2 : a < n := by omega
      have hB := ih ha2 (fun i hi => hz i (by omega))
      rw [hB]
      have hfn : f n = 0 := hz n (by omega) (fun h => han h.symm)
      have hnlt : ¬ f a < f n := by rw [hfn]; exact not_lt.mpr hpos.le
      rw [if_neg hnlt]

/-- Helper: a double sum over ranges of a function that vanishes everywhere
except at one in-range point equals the value at that point. -/
theorem double_sum_single (g : ℕ → ℕ → ℚ) (n m b c : ℕ) (hb : b < n)
    (hc : c < m) (hz : ∀ j k, j < n → k < m → (j ≠ b ∨ k ≠ c) → g j k = 0) :
    ((Finset.range n).sum fun j => (Finset.range m).sum fun k => g j k)
      = g b c := by
  rw [Finset.sum_eq_single_of_mem b (Finset.mem_range.mpr hb)]
  · exact Finset.sum_eq_single_of_mem c (Finset.mem_range.mpr hc)
      (fun k hk hkc => hz b k hb (Finset.mem_range.mp hk) (Or.inr hkc))
  · intro j hj hjb
    exact Finset.sum_eq_zero fun k hk =>
      hz j k (Finset.mem_range.mp hj) (Finset.mem_range.mp hk) (Or.inl hjb)

/-- Helper: a double sum over ranges of an everywhere-vanishing function is
zero. -/
theorem double_sum_zero (g : ℕ → ℕ → ℚ) (n m : ℕ)
    (hz : ∀ j k, j < n → k < m → g j k = 0) :
    ((Finset.range n).sum fun j => (Finset.range m).sum fun k => g j k)
      = 0 :=
  Finset.sum_eq_zero fun j hj => Finset.sum_eq_zero fun k hk =>
    hz j k (Finset.mem_range.mp hj) (Finset.mem_range.mp hk)

/-- Counterexample to claim C6 as stated: on a 1x1x1 volume whose only
voxel is 1 at the origin under the identity affine, the voxel's
physical-space coordinate as a 3-vector is `[0, 0, 0]`, but
`center_of_mass` does not return it — the homogeneous coordinate is never
collapsed to 3D (the function returns the full 4-vector `[0, 0, 0, 1]`). -/
theorem center_of_mass_single_voxel_cex :
    center_of_mass wVolN1 ≠ [0, 0, 0] := by
  intro h
  have hl := congrArg List.length h
  simp [center_of_mass] at hl

/-- Claim C6 (amended): on a volume whose data has exactly one nonzero
(positive) voxel `(a, b, c)`, `center_of_mass` returns the full 4-vector
obtained by mapping the homogeneous index `(a, b, c, 1)` through the affine;
its first three components are the voxel's physical-space coordinate, but
the result is not collapsed to a 3-vector. -/
theorem center_of_mass_single_voxel (img : VolumeN) (a b c : ℕ)
    (ha : a < img.n0) (hb : b < img.n1) (hc : c < img.n2)
    (hpos : 0 < img.data a b c)
    (hz : ∀ i, i < img.n0 → ∀ j, j < img.n1 → ∀ k, k < img.n2 →
      (i ≠ a ∨ j ≠ b ∨ k ≠ c) → img.data i j k = 0) :
    center_of_mass img
      = [img.affine 0 0 * a + img.affine 0 1 * b + img.affine 0 2 * c
          + img.affine 0 3,
         img.affine 1 0 * a + img.affine 1 1 * b + img.affine 1 2 * c
          + img.affine 1 3,
         img.affine 2 0 * a + img.affine 2 1 * b + img.affine 2 2 * c
          + img.affine 2 3,
         img.affine 3 0 * a + img.affine 3 1 * b + img.affine 3 2 * c
          + img.affine 3 3] := by
  have hm0a : marginal0 img a = img.data a b c := by
    unfold marginal0
    exact double_sum_single _ _ _ b c hb hc
      (fun j k hj hk hne => hz a ha j hj k hk (Or.inr hne))
  have h0 : np_argmax (marginal0 img) img.n0 = a :=
    np_argmax_single_peak _ a (by rw [hm0a]; exact hpos) img.n0 ha
      (fun i hi hia => by
        unfold marginal0
        exact double_sum_zero _ _ _
          (fun j k hj hk => hz i hi j hj k hk (Or.inl hia)))
  have hm1b : marginal1 img b = img.data a b c := by
    unfold marginal1
    exact double_sum_single (fun i k => img.data i b k) _ _ a c ha hc
      (fun i k hi hk hne => hz i hi b hb k hk (by
        rcases hne with h | h
        · exact Or.inl h
        · exact Or.inr (Or.inr h)))
  have h1 : np_argmax (marginal1 img) img.n1 = b :=
    np_argmax_single_peak _ b (by rw [hm1b]; exact hpos) img.n1 hb
      (fun j hj hjb => by
        unfold marginal1
        exact double_sum_zero _ _ _
          (fun i k hi hk => hz i hi j hj k hk (Or.inr (Or.inl hjb))))
  have hm2c : marginal2 img c = img.data a b c := by
    unfold marginal2
    exact double_sum_single (fun i j => img.data i j c) _ _ a b ha hb
      (fun i j hi hj hne => hz i hi j hj c hc (by
        rcases hne with h | h
        · exact Or.inl h
        · exact Or.inr (Or.inl h)))
  have h2 : np_argmax (marginal2 img) img.n2 = c :=
    np_argmax_single_peak _ c (by rw [hm2c]; exact hpos) img.n2 hc
      (fun k hk hkc => by
        unfold marginal2
        exact double_sum_zero _ _ _
          (fun i j hi hj => hz i hi j hj k hk (Or.inr (Or.inr hkc))))
  simp [center_of_mass, h0, h1, h2, dot4, homog4]

/-- Witness for claim C6 (amended) at a concrete volume: the single
positive voxel of `wVolN` is `(1, 0, 1)` with value 3, and `center_of_mass`
returns the 4-vector `[3, 1, 3, 2]`. -/
theorem center_of_mass_single_voxel_witness :
    0 < wVolN.data 1 0 1 ∧ center_of_mass wVolN = [3, 1, 3, 2] := by
  constructor
  · norm_num [wVolN]
  · rw [center_of_mass_single_voxel wVolN 1 0 1 (by norm_num [wVolN])
      (by norm_num [wVolN]) (by norm_num [wVolN]) (by norm_num [wVolN])
      (by
        intro i hi j hj k hk hne
        have hcond : ¬(i = 1 ∧ j = 0 ∧ k = 1) := by tauto
        simp [wVolN, hcond])]
    simp [wVolN]
    norm_num [show ((3 : Fin 4) : ℕ) = 3 from rfl]

/-- Helper: the explicit adjugate inverse is a left inverse on vectors when
the determinant is nonzero. -/
theorem inv3_mulVec3_cancel (M : Mat3) (v : Vec3) (h : det3 M ≠ 0) :
    mulVec3 (inv3 M) (mulVec3 M v) = v := by
  cases v with
  | mk x y z =>
    simp only [mulVec3, inv3, det3, Vec3.mk.injEq] at h ⊢
    refine ⟨?_, ?_, ?_⟩ <;> (field_simp; ring)

/-- Helper: trilinear interpolation at an exactly integral coordinate
returns the stored voxel value. -/
theorem trilinear_intCast (D : ℤ → ℤ → ℤ → ℚ) (i j k : ℤ) :
    trilinear D ⟨(i : ℚ), (j : ℚ), (k : ℚ)⟩ = D i j k := by
  simp [trilinear, Int.floor_intCast]

/-- Claim C7: for every volume with an invertible affine linear block,
`sample_point` at the physical-space point of a voxel index (the affine
applied to the homogeneous index) reproduces exactly the value stored at
that voxel: the inverse-affine computation followed by linear interpolation
at the resulting integral coordinate round-trips. -/
theorem sample_point_roundtrip (img : VolumeZ) (i j k : ℤ)
    (h : det3 img.affine3 ≠ 0) :
    sample_point img (voxel_to_phys img i j k) = img.data i j k := by
  show trilinear img.data
    (vadd3
      (mulVec3 (inv3 img.affine3)
        (vadd3 (mulVec3 img.affine3 ⟨(i : ℚ), (j : ℚ), (k : ℚ)⟩) img.trans))
      (mulVec3 (matNeg3 (inv3 img.affine3)) img.trans)) = img.data i j k
  have hs : vadd3
      (mulVec3 (inv3 img.affine3)
        (vadd3 (mulVec3 img.affine3 ⟨(i : ℚ), (j : ℚ), (k : ℚ)⟩) img.trans))
      (mulVec3 (matNeg3 (inv3 img.affine3)) img.trans)
      = mulVec3 (inv3 img.affine3)
          (mulVec3 img.affine3 ⟨(i : ℚ), (j : ℚ), (k : ℚ)⟩) := by
    simp only [vadd3, mulVec3, matNeg3, Vec3.mk.injEq]
    refine ⟨?_, ?_, ?_⟩ <;> ring
  rw [hs, inv3_mulVec3_cancel img.affine3 _ h, trilinear_intCast]

/-- Witness for claim C7 at a concrete volume: anisotropic affine with
determinant 2 and a translation; sampling at the physical point of voxel
`(1, 2, 3)` returns that voxel's value. -/
theorem sample_point_roundtrip_witness :
    det3 wVolZ.affine3 ≠ 0
    ∧ sample_point wVolZ (voxel_to_phys wVolZ 1 2 3) = wVolZ.data 1 2 3 := by
  have hd : det3 wVolZ.affine3 ≠ 0 := by norm_num [det3, wVolZ]
  exact ⟨hd, sample_point_roundtrip wVolZ 1 2 3 hd⟩

end nanslice
